import Mathlib

/-!
Verification development for the toki-reminder repository.

The source is a single-process reminder engine: `setupReminder` computes the
next occurrence of a task's schedule in the user's timezone (via moment-style
local calendar arithmetic), cancels any existing timer for the task key, arms
a fresh timer, registers it in the `activeReminders` map and persists the task
record; `handleTaskCancellation` cancels and removes; `cleanupStaleReminders`
and `restoreReminders` reconcile persisted records with the live timer map;
`startCountdownUpdate` runs a per-message countdown ticker; `DataManager`
loads the persisted JSON data file, creating it when absent.

All wall-clock values are modelled in the single relevant timezone (every
datetime inside one `setupReminder` call uses the same user timezone), so a
local calendar datetime stands for an instant; daylight-saving shifts are not
modelled, which none of the verified statements depend on.
-/

/-- A moment-style local datetime. `month` is 0-based (January = 0) and
`date` is the 1-based day of month, matching moment.js's `.month()` and
`.date()`. `day` (the weekday, 0 = Sunday) is derived below, as in moment. -/
structure LocalDT where
  year : Nat
  month : Nat
  date : Nat
  hour : Nat
  minute : Nat
  second : Nat
  ms : Nat
deriving DecidableEq, Repr

/-- Gregorian leap-year test. -/
def isLeap (y : Nat) : Bool :=
  (y % 4 == 0 && y % 100 != 0) || (y % 400 == 0)

/-- Days in 0-based month `m` of year `y` (moment's `daysInMonth`). -/
def daysInMonth (y m : Nat) : Nat :=
  match m with
  | 1 => if isLeap y then 29 else 28
  | 3 | 5 | 8 | 10 => 30
  | _ => 31

/-- Number of leap years in `1..y` (closed form: multiples of 4, minus
multiples of 100, plus multiples of 400). -/
def leapsUpto (y : Nat) : Nat :=
  y / 4 - y / 100 + y / 400

theorem leapsUpto_succ (y : Nat) :
    leapsUpto (y + 1) = leapsUpto y + (if isLeap (y + 1) then 1 else 0) := by
  have hiff : isLeap (y + 1) = true ↔
      (((y + 1) % 4 = 0 ∧ (y + 1) % 100 ≠ 0) ∨ (y + 1) % 400 = 0) := by
    simp [isLeap]
  by_cases hc : (((y + 1) % 4 = 0 ∧ (y + 1) % 100 ≠ 0) ∨ (y + 1) % 400 = 0)
  · rw [if_pos (hiff.mpr hc)]
    unfold leapsUpto
    rcases hc with ⟨h4, h100⟩ | h400 <;> omega
  · rw [if_neg (fun h => hc (hiff.mp h))]
    unfold leapsUpto
    by_cases h4 : (y + 1) % 4 = 0
    · have h100 : (y + 1) % 100 = 0 := by
        by_contra hq
        exact hc (Or.inl ⟨h4, hq⟩)
      have h400 : (y + 1) % 400 ≠ 0 := fun hq => hc (Or.inr hq)
      omega
    · have h400 : (y + 1) % 400 ≠ 0 := fun hq => hc (Or.inr hq)
      omega

/-- Days in year `y` strictly before 0-based month `m`. -/
def daysBefore (y : Nat) : Nat → Nat
  | 0 => 0
  | m + 1 => daysBefore y m + daysInMonth y m

/-- Serial day count of a date in the proleptic Gregorian calendar,
with 1 January of year 1 as day 0. -/
def dayNumber (dt : LocalDT) : Nat :=
  365 * (dt.year - 1) + leapsUpto (dt.year - 1) + daysBefore dt.year dt.month + (dt.date - 1)

/-- Weekday (0 = Sunday .. 6 = Saturday), moment's `.day()`.
1 January of year 1 is a Monday in the proleptic Gregorian calendar. -/
def day (dt : LocalDT) : Nat :=
  (dayNumber dt + 1) % 7

/-- A calendar-valid datetime: in-range day of month and month, positive year. -/
def ValidDT (dt : LocalDT) : Prop :=
  1 ≤ dt.year ∧ dt.month ≤ 11 ∧ 1 ≤ dt.date ∧ dt.date ≤ daysInMonth dt.year dt.month

instance (dt : LocalDT) : Decidable (ValidDT dt) := by
  unfold ValidDT; infer_instance

/-- moment's `add(1, 'day')`: advance the calendar date, keeping time-of-day. -/
def addOneDay (dt : LocalDT) : LocalDT :=
  if dt.date < daysInMonth dt.year dt.month then { dt with date := dt.date + 1 }
  else if dt.month < 11 then { dt with month := dt.month + 1, date := 1 }
  else { dt with year := dt.year + 1, month := 0, date := 1 }

/-- Strict instant order: lexicographic on the calendar fields.  Within one
timezone this is exactly moment's `isBefore`. -/
def ltDT (a b : LocalDT) : Bool :=
  if a.year ≠ b.year then decide (a.year < b.year)
  else if a.month ≠ b.month then decide (a.month < b.month)
  else if a.date ≠ b.date then decide (a.date < b.date)
  else if a.hour ≠ b.hour then decide (a.hour < b.hour)
  else if a.minute ≠ b.minute then decide (a.minute < b.minute)
  else if a.second ≠ b.second then decide (a.second < b.second)
  else decide (a.ms < b.ms)

/-- `leDT a b` holds when `a` is not after `b` (moment's `diff ≤ 0` test in
`startCountdownUpdate` with `a` the target and `b` now). -/
def leDT (a b : LocalDT) : Bool :=
  !ltDT b a

theorem one_le_daysInMonth (y m : Nat) : 1 ≤ daysInMonth y m := by
  unfold daysInMonth
  split <;> first | omega | (split <;> omega)

theorem daysBefore_eleven (y : Nat) :
    daysBefore y 11 = 334 + (if isLeap y then 1 else 0) := by
  show daysBefore y 10 + daysInMonth y 10 = _
  simp only [daysBefore, daysInMonth]
  split <;> omega

theorem dayNumber_addOneDay (dt : LocalDT) (h : ValidDT dt) :
    dayNumber (addOneDay dt) = dayNumber dt + 1 := by
  obtain ⟨hy, hm, hd1, hd2⟩ := h
  unfold addOneDay
  by_cases hlt : dt.date < daysInMonth dt.year dt.month
  · simp only [hlt, if_true, dayNumber]
    omega
  · have hdate : dt.date = daysInMonth dt.year dt.month := by omega
    by_cases hm11 : dt.month < 11
    · simp only [hlt, if_false, hm11, if_true, dayNumber]
      have hstep : daysBefore dt.year (dt.month + 1)
          = daysBefore dt.year dt.month + daysInMonth dt.year dt.month := rfl
      have h1 := one_le_daysInMonth dt.year dt.month
      omega
    · have hmeq : dt.month = 11 := by omega
      simp only [hlt, if_false, hm11, dayNumber]
      obtain ⟨z, hz⟩ : ∃ z, dt.year = z + 1 := ⟨dt.year - 1, by omega⟩
      have hdim : daysInMonth dt.year 11 = 31 := rfl
      rw [hmeq, hdim] at hdate
      have hdb := daysBefore_eleven (z + 1)
      have hlu := leapsUpto_succ z
      have h0 : daysBefore (z + 1 + 1) 0 = 0 := rfl
      rw [hmeq, hz]
      simp only [Nat.add_sub_cancel]
      cases hL : isLeap (z + 1) <;> simp [hL] at hdb hlu <;> omega

theorem day_lt_seven (dt : LocalDT) : day dt < 7 := by
  unfold day; omega

theorem day_addOneDay (dt : LocalDT) (h : ValidDT dt) :
    day (addOneDay dt) = (day dt + 1) % 7 := by
  unfold day
  rw [dayNumber_addOneDay dt h]
  omega

theorem validDT_addOneDay (dt : LocalDT) (h : ValidDT dt) : ValidDT (addOneDay dt) := by
  obtain ⟨hy, hm, hd1, hd2⟩ := h
  unfold addOneDay
  by_cases hlt : dt.date < daysInMonth dt.year dt.month
  · simp only [hlt, if_true, ValidDT]
    refine ⟨hy, hm, by omega, by omega⟩
  · by_cases hm11 : dt.month < 11
    · simp only [hlt, if_false, hm11, if_true, ValidDT]
      exact ⟨hy, by omega, le_refl 1, one_le_daysInMonth _ _⟩
    · simp only [hlt, if_false, hm11, ValidDT]
      exact ⟨by omega, by omega, le_refl 1, one_le_daysInMonth _ _⟩

/-! ## Recurrence resolution (`setupReminder`, src/unnamed/part_000:813-901)

`setupReminder(userId, taskName, scheduleType, time)` receives the schedule
either as an array of weekday numbers (custom days) or as one of the strings
`daily` / `weekly` / `monthly`.  Its `weekly` and `monthly` branches read a
variable `scheduleDay` that is not defined anywhere in the function's scope
(the function has only four parameters and no such local or global exists),
so reaching either branch raises a `ReferenceError` before any date
arithmetic happens; the intended target weekday / day-of-month never reaches
the function.  The `custom` branch runs
`while (!scheduleType.includes(nextRun.day())) nextRun.add(1, 'day')`,
which loops forever when no element of the array matches a weekday value. -/

/-- Runtime failures of the next-run computation in `setupReminder`. -/
inductive JsError where
  /-- `scheduleDay` is not defined (weekly/monthly branches). -/
  | referenceError
  /-- the custom-days while-loop never exits (no element matches a weekday);
  modelled by fuel exhaustion after a full week of candidates. -/
  | nonTermination
deriving DecidableEq, Repr

/-- The shape of the `scheduleType` argument of `setupReminder`: an array of
weekday numbers, or one of the strings `daily`, `weekly`, `monthly`. -/
inductive ScheduleType where
  | daily
  | weekly
  | monthly
  | custom (days : List Nat)
deriving DecidableEq, Repr

/-- `moment().tz(tz).hour(hours).minute(minutes || 0).second(0)`: today's
date at the requested wall-clock time.  Milliseconds are left untouched,
exactly as in the source (only `.second(0)` is applied). -/
def mkNextRun0 (hours mins : Nat) (now : LocalDT) : LocalDT :=
  { now with hour := hours, minute := mins, second := 0 }

/-- The custom-days loop of `setupReminder` (line 833):
`while (!scheduleType.includes(nextRun.day())) nextRun.add(1, 'day')`.
The source loop is unbounded; seven iterations examine every weekday, so
`none` after fuel 7 means the source loop never terminates. -/
def customLoop (days : List Nat) : Nat → LocalDT → Option LocalDT
  | 0, _ => none
  | fuel + 1, dt => if days.contains (day dt) then some dt
      else customLoop days fuel (addOneDay dt)

/-- The next-run computation of `setupReminder` (lines 828-867), for the
reference instant `now` (`moment().tz(userTimezone)`). -/
def computeNextRun (spec : ScheduleType) (hours mins : Nat) (now : LocalDT) :
    Except JsError LocalDT :=
  let nextRun0 := mkNextRun0 hours mins now
  match spec with
  | .custom days =>
      match customLoop days 7 nextRun0 with
      | some r => .ok r
      | none => .error .nonTermination
  | .daily => .ok (if ltDT nextRun0 now then addOneDay nextRun0 else nextRun0)
  | .weekly => .error .referenceError
  | .monthly => .error .referenceError

theorem customLoop_reaches (days : List Nat) :
    ∀ (fuel : Nat) (dt : LocalDT), ValidDT dt →
      (∃ j, j < fuel ∧ days.contains ((day dt + j) % 7) = true) →
      ∃ k, k < fuel ∧ customLoop days fuel dt = some (addOneDay^[k] dt)
        ∧ days.contains (day (addOneDay^[k] dt)) = true := by
  intro fuel
  induction fuel with
  | zero => intro dt _ ⟨j, hj, _⟩; omega
  | succ f ih =>
    intro dt hv ⟨j, hj, hmem⟩
    by_cases h0 : days.contains (day dt) = true
    · refine ⟨0, by omega, ?_, ?_⟩
      · rw [Function.iterate_zero_apply]
        simp only [customLoop]
        rw [if_pos h0]
      · rw [Function.iterate_zero_apply]
        exact h0
    · have hj0 : j ≠ 0 := by
        intro hje
        subst hje
        apply h0
        have h7 := day_lt_seven dt
        have hz : (day dt + 0) % 7 = day dt := by omega
        rwa [hz] at hmem
      have hstep : (day (addOneDay dt) + (j - 1)) % 7 = (day dt + j) % 7 := by
        rw [day_addOneDay dt hv]
        omega
      obtain ⟨k, hk, hloop, hcont⟩ := ih (addOneDay dt) (validDT_addOneDay dt hv)
        ⟨j - 1, by omega, by rwa [hstep]⟩
      refine ⟨k + 1, by omega, ?_, ?_⟩
      · rw [Function.iterate_succ_apply]
        simp only [customLoop]
        rw [if_neg h0]
        exact hloop
      · rw [Function.iterate_succ_apply]
        exact hcont

/-! ## Job registry (`activeReminders`, src/unnamed/part_000:40,813-901,636-663)

`activeReminders` is a `Map` from the reminder id string
(`userId + "_" + taskName`) to the live `node-schedule` job.  We model the
map as an association list, and additionally track the set of *armed* timers
(jobs created by `scheduleJob` whose `cancel()` has not been called) as a
list of (key, timer id) pairs, with a counter supplying fresh timer ids. -/

/-- Association-list lookup for the `activeReminders` map. -/
def lookupKV (k : String) : List (String × Nat) → Option Nat
  | [] => none
  | (k', v) :: rest => if k' = k then some v else lookupKV k rest

/-- `Map.set`: bind `k` to `v`, replacing any previous binding. -/
def insertKV (k : String) (v : Nat) (m : List (String × Nat)) : List (String × Nat) :=
  (k, v) :: m.filter (fun e => e.1 ≠ k)

/-- `Map.delete`. -/
def eraseKV (k : String) (m : List (String × Nat)) : List (String × Nat) :=
  m.filter (fun e => e.1 ≠ k)

/-- Runtime state of the reminder engine: the `activeReminders` map, the
armed (not-cancelled) timers with the key each was created for, and a
counter producing fresh timer handles. -/
structure RegState where
  reminders : List (String × Nat)
  armed : List (String × Nat)
  counter : Nat
deriving DecidableEq, Repr

/-- The empty initial state (`new Map()`). -/
def initRegState : RegState :=
  { reminders := [], armed := [], counter := 0 }

/-- Errors surfaced by `setupReminder`. -/
inductive SchedErr where
  | js (e : JsError)
  /-- the final `db.set` rejected. -/
  | persistenceError
deriving DecidableEq, Repr

instance {ε α : Type} [DecidableEq ε] [DecidableEq α] :
    DecidableEq (Except ε α) := fun x y =>
  match x, y with
  | .ok a, .ok b =>
      if h : a = b then isTrue (congrArg Except.ok h)
      else isFalse fun hq => h (Except.ok.inj hq)
  | .error a, .error b =>
      if h : a = b then isTrue (congrArg Except.error h)
      else isFalse fun hq => h (Except.error.inj hq)
  | .ok _, .error _ => isFalse fun hq => Except.noConfusion hq
  | .error _, .ok _ => isFalse fun hq => Except.noConfusion hq

/-- Lines 816-818 of `setupReminder`: if `activeReminders` has the key,
`cancel()` the old job.  The map entry itself is *not* deleted here. -/
def cancelExisting (s : RegState) (key : String) : RegState :=
  match lookupKV key s.reminders with
  | some j => { s with armed := s.armed.filter (fun e => e.2 ≠ j) }
  | none => s

/-- Lines 868-890 of `setupReminder`: `nodeSchedule.scheduleJob(...)` arms a
fresh timer, then `activeReminders.set(reminderId, job)` registers it. -/
def armAndRegister (s : RegState) (key : String) : RegState :=
  { reminders := insertKV key s.counter s.reminders
    armed := s.armed ++ [(key, s.counter)]
    counter := s.counter + 1 }

/-- `setupReminder` (src/unnamed/part_000:813-901) as a state transition.
Order of effects, exactly as in the source:
1. if `activeReminders` has the key, `cancel()` the old job (lines 816-818);
2. compute `nextRun` (lines 828-867) — a thrown `ReferenceError`
   (weekly/monthly) propagates, leaving the state as after step 1;
3. arm a fresh timer and register it in the map (lines 868-890);
4. `await db.set(...)` persists the record (line 892) — `persistOk = false`
   models a rejected write, whose error propagates only after the timer is
   already armed and registered.
`base` is the reference instant `moment().tz(userTimezone)`. -/
def setupReminderStep (s : RegState) (key : String) (spec : ScheduleType)
    (hours mins : Nat) (base : LocalDT) (persistOk : Bool) :
    RegState × Except SchedErr LocalDT :=
  match computeNextRun spec hours mins base with
  | .error e => (cancelExisting s key, .error (.js e))
  | .ok nextRun =>
    if persistOk then (armAndRegister (cancelExisting s key) key, .ok nextRun)
    else (armAndRegister (cancelExisting s key) key, .error .persistenceError)

/-- `handleTaskCancellation` (src/unnamed/part_000:636-663) restricted to its
registry effect: cancel the live job and delete the map entry; cancelling an
absent key is a no-op. -/
def cancelTaskStep (s : RegState) (key : String) : RegState :=
  match lookupKV key s.reminders with
  | some j =>
      { s with armed := s.armed.filter (fun e => e.2 ≠ j)
               reminders := eraseKV key s.reminders }
  | none => s

/-- A user-triggered registry operation. -/
inductive RegOp where
  | schedule (key : String) (spec : ScheduleType) (hours mins : Nat)
      (base : LocalDT) (persistOk : Bool)
  | cancel (key : String)

/-- Apply one operation (the result value of `setupReminder` is irrelevant to
the registry state). -/
def applyRegOp (s : RegState) : RegOp → RegState
  | .schedule key spec hours mins base persistOk =>
      (setupReminderStep s key spec hours mins base persistOk).1
  | .cancel key => cancelTaskStep s key

/-- Run a sequence of operations from a state. -/
def runRegOps (ops : List RegOp) (s : RegState) : RegState :=
  ops.foldl applyRegOp s

/-- Number of armed timers whose key is `k`. -/
def armedCount (k : String) (s : RegState) : Nat :=
  (s.armed.filter (fun e => e.1 = k)).length

theorem lookupKV_filter_ne {k k' : String} (h : k' ≠ k) :
    ∀ m : List (String × Nat),
      lookupKV k' (m.filter (fun e => e.1 ≠ k)) = lookupKV k' m
  | [] => rfl
  | (a, b) :: rest => by
    simp only [List.filter_cons]
    by_cases he : a = k
    · have hd : (decide ((a, b).1 ≠ k)) = false := by simp [he]
      rw [hd, if_neg (by simp), lookupKV_filter_ne h rest]
      show _ = lookupKV k' ((a, b) :: rest)
      simp only [lookupKV]
      rw [if_neg (fun hq : a = k' => h (hq ▸ he))]
    · have hd : (decide ((a, b).1 ≠ k)) = true := by simp [he]
      rw [hd, if_pos rfl]
      show lookupKV k' ((a, b) :: _) = lookupKV k' ((a, b) :: rest)
      simp only [lookupKV]
      by_cases he' : a = k'
      · rw [if_pos he', if_pos he']
      · rw [if_neg he', if_neg he', lookupKV_filter_ne h rest]

theorem lookupKV_insert_self (k : String) (v : Nat) (m : List (String × Nat)) :
    lookupKV k (insertKV k v m) = some v := by
  simp [insertKV, lookupKV]

theorem lookupKV_insert_ne {k k' : String} (h : k' ≠ k) (v : Nat)
    (m : List (String × Nat)) :
    lookupKV k' (insertKV k v m) = lookupKV k' m := by
  simp only [insertKV, lookupKV]
  rw [if_neg (fun hq => h hq.symm), lookupKV_filter_ne h]

theorem lookupKV_erase_self (k : String) :
    ∀ m : List (String × Nat), lookupKV k (eraseKV k m) = none
  | [] => rfl
  | (a, b) :: rest => by
    simp only [eraseKV, List.filter_cons]
    by_cases he : a = k
    · have hd : (decide ((a, b).1 ≠ k)) = false := by simp [he]
      rw [hd, if_neg (by simp)]
      exact lookupKV_erase_self k rest
    · have hd : (decide ((a, b).1 ≠ k)) = true := by simp [he]
      rw [hd, if_pos rfl]
      show lookupKV k ((a, b) :: _) = none
      simp only [lookupKV]
      rw [if_neg he]
      exact lookupKV_erase_self k rest

theorem lookupKV_erase_ne {k k' : String} (h : k' ≠ k) (m : List (String × Nat)) :
    lookupKV k' (eraseKV k m) = lookupKV k' m :=
  lookupKV_filter_ne h m

/-- Well-formedness of the runtime state: (1) at most one armed timer per
key; (2) every armed timer for a key is exactly the job registered in the
map for that key; (3) registered timer ids are below the freshness counter. -/
def RegWF (s : RegState) : Prop :=
  (∀ k, armedCount k s ≤ 1) ∧
  (∀ k j, (k, j) ∈ s.armed → lookupKV k s.reminders = some j) ∧
  (∀ k j, lookupKV k s.reminders = some j → j < s.counter)

theorem regWF_init : RegWF initRegState := by
  refine ⟨fun k => ?_, fun k j h => ?_, fun k j h => ?_⟩ <;>
    simp [initRegState, armedCount, lookupKV] at *

theorem armedCount_filter_le (k : String) (q : String × Nat → Bool)
    (s : RegState) :
    ((s.armed.filter q).filter (fun e => e.1 = k)).length ≤ armedCount k s := by
  unfold armedCount
  exact List.Sublist.length_le (List.Sublist.filter _ (List.filter_sublist _))

theorem cancelExisting_no_key (s : RegState) (key : String) (h : RegWF s) :
    ∀ j, (key, j) ∉ (cancelExisting s key).armed := by
  intro j hmem
  obtain ⟨_, h2, _⟩ := h
  unfold cancelExisting at hmem
  cases hl : lookupKV key s.reminders with
  | none =>
    rw [hl] at hmem
    have := h2 key j hmem
    rw [hl] at this
    exact Option.noConfusion this
  | some j0 =>
    rw [hl] at hmem
    simp only [List.mem_filter, decide_eq_true_eq] at hmem
    obtain ⟨hin, hne⟩ := hmem
    have hj := h2 key j hin
    rw [hl] at hj
    exact hne (Option.some.inj hj).symm

theorem regWF_cancelExisting (s : RegState) (key : String) (h : RegWF s) :
    RegWF (cancelExisting s key) := by
  obtain ⟨h1, h2, h3⟩ := h
  unfold cancelExisting
  cases hl : lookupKV key s.reminders with
  | none => exact ⟨h1, h2, h3⟩
  | some j0 =>
    refine ⟨fun k => ?_, fun k j hm => ?_, h3⟩
    · exact le_trans (armedCount_filter_le k _ s) (h1 k)
    · simp only [List.mem_filter] at hm
      exact h2 k j hm.1

theorem regWF_armAndRegister (s : RegState) (key : String) (h : RegWF s)
    (hno : ∀ j, (key, j) ∉ s.armed) : RegWF (armAndRegister s key) := by
  obtain ⟨h1, h2, h3⟩ := h
  refine ⟨fun k => ?_, fun k j hm => ?_, fun k j hm => ?_⟩
  · unfold armedCount armAndRegister
    simp only [List.filter_append, List.length_append]
    by_cases hk : k = key
    · subst hk
      have hz : s.armed.filter (fun e => decide (e.1 = k)) = [] := by
        rw [List.filter_eq_nil_iff]
        intro e he
        simp only [decide_eq_true_eq]
        intro hek
        apply hno e.2
        have hme : (e.1, e.2) ∈ s.armed := by rwa [Prod.mk.eta]
        rwa [hek] at hme
      rw [hz]
      simp
    · have hz : [(key, s.counter)].filter (fun e => decide (e.1 = k)) = [] := by
        rw [List.filter_eq_nil_iff]
        intro e he
        simp only [List.mem_singleton] at he
        subst he
        simp only [decide_eq_true_eq]
        exact fun h' => hk h'.symm
      rw [hz]
      have hc := h1 k
      unfold armedCount at hc
      simpa using hc
  · simp only [armAndRegister, List.mem_append, List.mem_singleton] at hm
    rcases hm with hin | heq
    · by_cases hk : k = key
      · subst hk
        exact absurd hin (hno j)
      · show lookupKV k (insertKV key s.counter s.reminders) = some j
        rw [lookupKV_insert_ne hk]
        exact h2 k j hin
    · rw [Prod.mk.injEq] at heq
      obtain ⟨rfl, rfl⟩ := heq
      show lookupKV k (insertKV k s.counter s.reminders) = some s.counter
      exact lookupKV_insert_self k s.counter s.reminders
  · show j < s.counter + 1
    unfold armAndRegister at hm
    dsimp only at hm
    by_cases hk : k = key
    · subst hk
      rw [lookupKV_insert_self] at hm
      have hsj := Option.some.inj hm
      omega
    · rw [lookupKV_insert_ne hk] at hm
      have := h3 k j hm
      omega

theorem regWF_setupReminderStep (s : RegState) (key : String)
    (spec : ScheduleType) (hours mins : Nat) (base : LocalDT) (persistOk : Bool)
    (h : RegWF s) :
    RegWF (setupReminderStep s key spec hours mins base persistOk).1 := by
  unfold setupReminderStep
  cases computeNextRun spec hours mins base with
  | error e => exact regWF_cancelExisting s key h
  | ok nextRun =>
    have hwf1 := regWF_cancelExisting s key h
    have hno := cancelExisting_no_key s key h
    cases persistOk <;>
      simpa using regWF_armAndRegister (cancelExisting s key) key hwf1 hno

theorem regWF_cancelTaskStep (s : RegState) (key : String) (h : RegWF s) :
    RegWF (cancelTaskStep s key) := by
  obtain ⟨h1, h2, h3⟩ := h
  unfold cancelTaskStep
  cases hl : lookupKV key s.reminders with
  | none => exact ⟨h1, h2, h3⟩
  | some j0 =>
    refine ⟨fun k => ?_, fun k j hm => ?_, fun k j hm => ?_⟩
    · exact le_trans (armedCount_filter_le k _ s) (h1 k)
    · simp only [List.mem_filter, decide_eq_true_eq] at hm
      obtain ⟨hin, hne⟩ := hm
      have hj := h2 k j hin
      by_cases hk : k = key
      · subst hk
        rw [hl] at hj
        exact absurd (Option.some.inj hj).symm hne
      · show lookupKV k (eraseKV key s.reminders) = some j
        rw [lookupKV_erase_ne hk]
        exact hj
    · show j < s.counter
      dsimp only at hm
      by_cases hk : k = key
      · subst hk
        rw [lookupKV_erase_self] at hm
        exact Option.noConfusion hm
      · rw [lookupKV_erase_ne hk] at hm
        exact h3 k j hm

theorem regWF_runRegOps (ops : List RegOp) :
    ∀ s : RegState, RegWF s → RegWF (runRegOps ops s) := by
  induction ops with
  | nil => intro s h; exact h
  | cons op rest ih =>
    intro s h
    show RegWF (runRegOps rest (applyRegOp s op))
    apply ih
    cases op with
    | schedule key spec hours mins base persistOk =>
        exact regWF_setupReminderStep s key spec hours mins base persistOk h
    | cancel key => exact regWF_cancelTaskStep s key h

theorem schedule_cancels_old_handle (s : RegState) (k : String) (j : Nat)
    (spec : ScheduleType) (hours mins : Nat) (base : LocalDT) (persistOk : Bool)
    (h : RegWF s) (hl : lookupKV k s.reminders = some j) :
    ((setupReminderStep s k spec hours mins base persistOk).1.armed.all
      (fun e => e.2 ≠ j)) = true := by
  obtain ⟨h1, h2, h3⟩ := h
  have hcanc : cancelExisting s k
      = { s with armed := s.armed.filter (fun e => e.2 ≠ j) } := by
    unfold cancelExisting
    rw [hl]
  unfold setupReminderStep
  cases hc : computeNextRun spec hours mins base with
  | error e =>
    dsimp only
    rw [hcanc, List.all_eq_true]
    intro e' he'
    simp only [List.mem_filter] at he'
    exact he'.2
  | ok nx =>
    have hjc : j < s.counter := h3 k j hl
    cases persistOk <;>
    · dsimp only
      rw [hcanc]
      show ((s.armed.filter (fun e => e.2 ≠ j))
          ++ [(k, s.counter)]).all (fun e => e.2 ≠ j) = true
      rw [List.all_append, Bool.and_eq_true]
      constructor
      · rw [List.all_eq_true]
        intro e' he'
        exact (List.mem_filter.mp he').2
      · simp only [List.all_cons, List.all_nil, Bool.and_true, decide_eq_true_eq]
        omega

/-- C2: starting from the empty registry, after any finite sequence of
`setupReminder`/`handleTaskCancellation` operations the registry holds at
most one live (armed) timer per key; moreover scheduling over an existing
key cancels the old timer handle before the new job is inserted: after a
further `setupReminder` for a key whose registered job handle is `j`, no
armed timer with handle `j` remains. -/
theorem c2_at_most_one_live_timer (ops : List RegOp) (k : String) :
    armedCount k (runRegOps ops initRegState) ≤ 1 ∧
    (∀ (j : Nat) (spec : ScheduleType) (hours mins : Nat) (base : LocalDT)
        (persistOk : Bool),
      lookupKV k (runRegOps ops initRegState).reminders = some j →
      ((setupReminderStep (runRegOps ops initRegState) k spec hours mins base
          persistOk).1.armed.all (fun e => e.2 ≠ j)) = true) := by
  have hwf := regWF_runRegOps ops initRegState regWF_init
  exact ⟨hwf.1 k, fun j spec hours mins base persistOk hl =>
    schedule_cancels_old_handle _ k j spec hours mins base persistOk hwf hl⟩

/-- Witness for C2 at a concrete input: schedule a daily task, then observe
that re-scheduling the same key leaves no armed timer with the old handle. -/
theorem c2_at_most_one_live_timer_witness :
    ((setupReminderStep
        (runRegOps [RegOp.schedule "77_workout" .daily 9 0
          ⟨2024, 9, 11, 12, 0, 0, 0⟩ true] initRegState)
        "77_workout" .daily 10 0 ⟨2024, 9, 11, 12, 0, 0, 0⟩ true).1.armed.all
      (fun e => e.2 ≠ 0)) = true :=
  (c2_at_most_one_live_timer
      [RegOp.schedule "77_workout" .daily 9 0 ⟨2024, 9, 11, 12, 0, 0, 0⟩ true]
      "77_workout").2 0 .daily 10 0 ⟨2024, 9, 11, 12, 0, 0, 0⟩ true (by decide)

/-- C3 counterexample: from the empty registry, schedule a daily task whose
`db.set` rejects.  The operation fails with a persistence error, yet the
fresh timer (handle 0) is armed and registered — the source arms the timer
(line 868) and registers it (line 890) *before* persisting (line 892), so a
persistence failure leaves an armed timer for a never-saved schedule,
contradicting the claimed persist-then-arm ordering. -/
theorem c3_persist_before_arm_counterexample :
    (setupReminderStep initRegState "77_workout" .daily 9 0
        ⟨2024, 9, 11, 12, 0, 0, 0⟩ false).2 = .error .persistenceError ∧
    ("77_workout", 0) ∈ (setupReminderStep initRegState "77_workout" .daily 9 0
        ⟨2024, 9, 11, 12, 0, 0, 0⟩ false).1.armed ∧
    lookupKV "77_workout" (setupReminderStep initRegState "77_workout" .daily 9 0
        ⟨2024, 9, 11, 12, 0, 0, 0⟩ false).1.reminders = some 0 := by
  decide

/-- C3 amended: `setupReminder` arms the timer and registers it in
`activeReminders` *before* attempting the persistence write; when the write
fails, the call fails with a persistence error but the newly armed timer
remains armed and registered. -/
theorem c3_amended_arm_then_write (s : RegState) (key : String)
    (spec : ScheduleType) (hours mins : Nat) (base : LocalDT) (nx : LocalDT)
    (hok : computeNextRun spec hours mins base = .ok nx) :
    (setupReminderStep s key spec hours mins base false).2
      = .error .persistenceError ∧
    (key, (cancelExisting s key).counter)
      ∈ (setupReminderStep s key spec hours mins base false).1.armed ∧
    lookupKV key (setupReminderStep s key spec hours mins base false).1.reminders
      = some (cancelExisting s key).counter := by
  unfold setupReminderStep
  rw [hok]
  dsimp only
  refine ⟨rfl, ?_, ?_⟩
  · show (key, (cancelExisting s key).counter)
      ∈ (cancelExisting s key).armed ++ [(key, (cancelExisting s key).counter)]
    simp
  · exact lookupKV_insert_self key (cancelExisting s key).counter
      (cancelExisting s key).reminders

/-- Witness for C3's amended statement at a concrete input. -/
theorem c3_amended_arm_then_write_witness :
    (setupReminderStep initRegState "77_workout" .daily 9 0
        ⟨2024, 9, 11, 12, 0, 0, 0⟩ false).2 = .error .persistenceError ∧
    ("77_workout", (cancelExisting initRegState "77_workout").counter)
      ∈ (setupReminderStep initRegState "77_workout" .daily 9 0
          ⟨2024, 9, 11, 12, 0, 0, 0⟩ false).1.armed ∧
    lookupKV "77_workout" (setupReminderStep initRegState "77_workout" .daily 9 0
        ⟨2024, 9, 11, 12, 0, 0, 0⟩ false).1.reminders
      = some (cancelExisting initRegState "77_workout").counter :=
  c3_amended_arm_then_write initRegState "77_workout" .daily 9 0
    ⟨2024, 9, 11, 12, 0, 0, 0⟩ ⟨2024, 9, 12, 9, 0, 0, 0⟩ (by decide)

/-! ## Reconciliation sweeps (src/unnamed/part_000:737-755 and 1024-1042)

Both sweeps snapshot the store once (`await db.all()`) and then visit every
persisted task record; we pass that snapshot as a list of records.  All
calls within one pass share the reference instant `base`, and the store is
assumed available (`persistOk = true`). -/

/-- One persisted task record as visited by the sweeps. -/
structure TaskRec where
  key : String
  schedule : ScheduleType
  hours : Nat
  mins : Nat

/-- `cleanupStaleReminders` (src/unnamed/part_000:737-755): for each record
whose key has no entry in `activeReminders`, call `setupReminder`.  The
single `try/catch` wraps the *whole* loop, so a record whose
`setupReminder` throws aborts the remaining records; mutations already
performed persist and the error is only logged.  (A record whose custom-day
loop diverges hangs the real pass; modelling the fuel exhaustion as an
aborting error gives the same registry state, with no further records
processed.) -/
def cleanupStaleReminders (base : LocalDT) : List TaskRec → RegState → RegState
  | [], s => s
  | r :: rest, s =>
      if (lookupKV r.key s.reminders).isSome then cleanupStaleReminders base rest s
      else
        match setupReminderStep s r.key r.schedule r.hours r.mins base true with
        | (s', .ok _) => cleanupStaleReminders base rest s'
        | (s', .error _) => s'

/-- `restoreReminders` (src/unnamed/part_000:1024-1042): calls
`setupReminder` for *every* record (no `has` check — `setupReminder` itself
replaces an existing job), with a `try/catch` around each individual record,
so a throwing record does not stop the remaining ones. -/
def restoreReminders (base : LocalDT) : List TaskRec → RegState → RegState
  | [], s => s
  | r :: rest, s =>
      restoreReminders base rest
        (setupReminderStep s r.key r.schedule r.hours r.mins base true).1

theorem cancelExisting_reminders (s : RegState) (key : String) :
    (cancelExisting s key).reminders = s.reminders := by
  unfold cancelExisting
  cases lookupKV key s.reminders <;> rfl

theorem cancelExisting_counter (s : RegState) (key : String) :
    (cancelExisting s key).counter = s.counter := by
  unfold cancelExisting
  cases lookupKV key s.reminders <;> rfl

theorem cancelExisting_of_absent (s : RegState) (key : String)
    (h : lookupKV key s.reminders = none) : cancelExisting s key = s := by
  unfold cancelExisting
  rw [h]

/-- A `setupReminder` call for a different key does not change what the map
binds for `k`. -/
theorem setupReminderStep_preserves_other (s : RegState) (k key : String)
    (hk : k ≠ key) (spec : ScheduleType) (hours mins : Nat) (base : LocalDT)
    (persistOk : Bool) :
    lookupKV k (setupReminderStep s key spec hours mins base persistOk).1.reminders
      = lookupKV k s.reminders := by
  unfold setupReminderStep
  cases computeNextRun spec hours mins base with
  | error e =>
    dsimp only
    rw [cancelExisting_reminders]
  | ok nx =>
    cases persistOk <;>
    · dsimp only
      show lookupKV k (insertKV key (cancelExisting s key).counter
        (cancelExisting s key).reminders) = _
      rw [lookupKV_insert_ne hk, cancelExisting_reminders]

theorem setupReminderStep_armed_mono_absent (s : RegState) (key : String)
    (h : lookupKV key s.reminders = none) (spec : ScheduleType)
    (hours mins : Nat) (base : LocalDT) (persistOk : Bool) (e : String × Nat)
    (he : e ∈ s.armed) :
    e ∈ (setupReminderStep s key spec hours mins base persistOk).1.armed := by
  unfold setupReminderStep
  have hce := cancelExisting_of_absent s key h
  cases computeNextRun spec hours mins base with
  | error _ =>
    dsimp only
    rw [hce]
    exact he
  | ok nx =>
    cases persistOk <;>
    · dsimp only
      show e ∈ (cancelExisting s key).armed
        ++ [(key, (cancelExisting s key).counter)]
      rw [hce]
      exact List.mem_append_left _ he

theorem setupReminderStep_fst_ok_absent (s : RegState) (key : String)
    (spec : ScheduleType) (hours mins : Nat) (base : LocalDT)
    (h : lookupKV key s.reminders = none) (nx : LocalDT)
    (hok : computeNextRun spec hours mins base = .ok nx) :
    (setupReminderStep s key spec hours mins base true).1
      = armAndRegister s key := by
  unfold setupReminderStep
  rw [hok]
  dsimp only
  rw [if_pos rfl]
  dsimp only
  rw [cancelExisting_of_absent s key h]

theorem setupReminderStep_fst_of_ok_true (s s' : RegState) (key : String)
    (spec : ScheduleType) (hours mins : Nat) (base : LocalDT) (nx : LocalDT)
    (hstep : setupReminderStep s key spec hours mins base true
      = (s', Except.ok nx)) :
    s' = armAndRegister (cancelExisting s key) key := by
  unfold setupReminderStep at hstep
  cases hc : computeNextRun spec hours mins base with
  | error e0 =>
    rw [hc] at hstep
    exact absurd (congrArg Prod.snd hstep) (by simp)
  | ok nx' =>
    rw [hc] at hstep
    dsimp only at hstep
    exact (congrArg Prod.fst hstep).symm

theorem setupReminderStep_lookup_self_ok (s s' : RegState) (key : String)
    (spec : ScheduleType) (hours mins : Nat) (base : LocalDT) (nx : LocalDT)
    (hstep : setupReminderStep s key spec hours mins base true
      = (s', Except.ok nx)) :
    lookupKV key s'.reminders = some (cancelExisting s key).counter := by
  unfold setupReminderStep at hstep
  cases hc : computeNextRun spec hours mins base with
  | error e =>
    rw [hc] at hstep
    exact absurd (congrArg Prod.snd hstep) (by simp)
  | ok nx' =>
    rw [hc] at hstep
    dsimp only at hstep
    have hf : armAndRegister (cancelExisting s key) key = s' :=
      congrArg Prod.fst hstep
    rw [← hf]
    show lookupKV key (insertKV key (cancelExisting s key).counter
      (cancelExisting s key).reminders) = _
    exact lookupKV_insert_self _ _ _

theorem setupReminderStep_fst_of_error_true (s s' : RegState) (key : String)
    (spec : ScheduleType) (hours mins : Nat) (base : LocalDT) (e : SchedErr)
    (hstep : setupReminderStep s key spec hours mins base true
      = (s', Except.error e)) :
    s' = cancelExisting s key := by
  unfold setupReminderStep at hstep
  cases hc : computeNextRun spec hours mins base with
  | error e0 =>
    rw [hc] at hstep
    dsimp only at hstep
    exact (congrArg Prod.fst hstep).symm
  | ok nx =>
    rw [hc] at hstep
    dsimp only at hstep
    exact absurd (congrArg Prod.snd hstep) (by simp)

theorem cleanup_lookup_mono (base : LocalDT) (recs : List TaskRec) :
    ∀ (s : RegState) (k : String) (j : Nat),
      lookupKV k s.reminders = some j →
      lookupKV k (cleanupStaleReminders base recs s).reminders = some j := by
  induction recs with
  | nil => intro s k j h; exact h
  | cons r rest ih =>
    intro s k j h
    by_cases hr : (lookupKV r.key s.reminders).isSome = true
    · have hskip : cleanupStaleReminders base (r :: rest) s
          = cleanupStaleReminders base rest s := by
        simp only [cleanupStaleReminders]
        rw [if_pos hr]
      rw [hskip]
      exact ih s k j h
    · have hnone : lookupKV r.key s.reminders = none := by
        cases hq : lookupKV r.key s.reminders
        · rfl
        · rw [hq] at hr; exact absurd rfl hr
      have hk : k ≠ r.key := by
        intro hq
        rw [hq, hnone] at h
        exact Option.noConfusion h
      rcases hstep : setupReminderStep s r.key r.schedule r.hours r.mins base true
        with ⟨s', res⟩
      have hfst : (setupReminderStep s r.key r.schedule r.hours r.mins base true).1
          = s' := by rw [hstep]
      have hs' : lookupKV k s'.reminders = some j := by
        rw [← hfst, setupReminderStep_preserves_other s k r.key hk]
        exact h
      cases res with
      | ok nx =>
        have hinner : cleanupStaleReminders base (r :: rest) s
            = cleanupStaleReminders base rest s' := by
          simp only [cleanupStaleReminders]
          rw [if_neg hr, hstep]
        rw [hinner]
        exact ih s' k j hs'
      | error e =>
        have hinner : cleanupStaleReminders base (r :: rest) s = s' := by
          simp only [cleanupStaleReminders]
          rw [if_neg hr, hstep]
        rw [hinner]
        exact hs'

theorem cleanup_armed_mono (base : LocalDT) (recs : List TaskRec) :
    ∀ (s : RegState) (e : String × Nat),
      e ∈ s.armed → e ∈ (cleanupStaleReminders base recs s).armed := by
  induction recs with
  | nil => intro s e h; exact h
  | cons r rest ih =>
    intro s e he
    by_cases hr : (lookupKV r.key s.reminders).isSome = true
    · have hskip : cleanupStaleReminders base (r :: rest) s
          = cleanupStaleReminders base rest s := by
        simp only [cleanupStaleReminders]
        rw [if_pos hr]
      rw [hskip]
      exact ih s e he
    · have hnone : lookupKV r.key s.reminders = none := by
        cases hq : lookupKV r.key s.reminders
        · rfl
        · rw [hq] at hr; exact absurd rfl hr
      rcases hstep : setupReminderStep s r.key r.schedule r.hours r.mins base true
        with ⟨s', res⟩
      have hfst : (setupReminderStep s r.key r.schedule r.hours r.mins base true).1
          = s' := by rw [hstep]
      have hs' : e ∈ s'.armed := by
        rw [← hfst]
        exact setupReminderStep_armed_mono_absent s r.key hnone r.schedule
          r.hours r.mins base true e he
      cases res with
      | ok nx =>
        have hinner : cleanupStaleReminders base (r :: rest) s
            = cleanupStaleReminders base rest s' := by
          simp only [cleanupStaleReminders]
          rw [if_neg hr, hstep]
        rw [hinner]
        exact ih s' e hs'
      | error e0 =>
        have hinner : cleanupStaleReminders base (r :: rest) s = s' := by
          simp only [cleanupStaleReminders]
          rw [if_neg hr, hstep]
        rw [hinner]
        exact hs'

theorem cleanup_armed_source (base : LocalDT) (recs : List TaskRec) :
    ∀ (s : RegState) (e : String × Nat),
      e ∈ (cleanupStaleReminders base recs s).armed →
      e ∈ s.armed ∨ lookupKV e.1 s.reminders = none := by
  induction recs with
  | nil => intro s e h; exact Or.inl h
  | cons r rest ih =>
    intro s e he
    by_cases hr : (lookupKV r.key s.reminders).isSome = true
    · have hskip : cleanupStaleReminders base (r :: rest) s
          = cleanupStaleReminders base rest s := by
        simp only [cleanupStaleReminders]
        rw [if_pos hr]
      rw [hskip] at he
      exact ih s e he
    · have hnone : lookupKV r.key s.reminders = none := by
        cases hq : lookupKV r.key s.reminders
        · rfl
        · rw [hq] at hr; exact absurd rfl hr
      rcases hstep : setupReminderStep s r.key r.schedule r.hours r.mins base true
        with ⟨s', res⟩
      cases res with
      | ok nx =>
        have hinner : cleanupStaleReminders base (r :: rest) s
            = cleanupStaleReminders base rest s' := by
          simp only [cleanupStaleReminders]
          rw [if_neg hr, hstep]
        rw [hinner] at he
        have hshape : s' = armAndRegister s r.key := by
          have h1 := setupReminderStep_fst_of_ok_true s s' r.key r.schedule
            r.hours r.mins base nx hstep
          rw [cancelExisting_of_absent s r.key hnone] at h1
          exact h1
        rcases ih s' e he with hin | hnone'
        · rw [hshape] at hin
          unfold armAndRegister at hin
          dsimp only at hin
          rcases List.mem_append.mp hin with hl | hsing
          · exact Or.inl hl
          · rw [List.mem_singleton] at hsing
            subst hsing
            exact Or.inr hnone
        · rw [hshape] at hnone'
          unfold armAndRegister at hnone'
          dsimp only at hnone'
          by_cases hek : e.1 = r.key
          · rw [hek, lookupKV_insert_self] at hnone'
            exact Option.noConfusion hnone'
          · rw [lookupKV_insert_ne hek] at hnone'
            exact Or.inr hnone'
      | error e0 =>
        have hinner : cleanupStaleReminders base (r :: rest) s = s' := by
          simp only [cleanupStaleReminders]
          rw [if_neg hr, hstep]
        rw [hinner] at he
        have hshape : s' = cancelExisting s r.key :=
          setupReminderStep_fst_of_error_true s s' r.key r.schedule r.hours
            r.mins base e0 hstep
        rw [hshape, cancelExisting_of_absent s r.key hnone] at he
        exact Or.inl he

theorem cleanup_idem (base : LocalDT) (recs : List TaskRec) :
    ∀ s : RegState,
      cleanupStaleReminders base recs (cleanupStaleReminders base recs s)
        = cleanupStaleReminders base recs s := by
  induction recs with
  | nil => intro s; rfl
  | cons r rest ih =>
    intro s
    by_cases hr : (lookupKV r.key s.reminders).isSome = true
    · obtain ⟨j, hj⟩ := Option.isSome_iff_exists.mp hr
      have hinner : cleanupStaleReminders base (r :: rest) s
          = cleanupStaleReminders base rest s := by
        simp only [cleanupStaleReminders]
        rw [if_pos hr]
      rw [hinner]
      have houter : lookupKV r.key (cleanupStaleReminders base rest s).reminders
          = some j := cleanup_lookup_mono base rest s r.key j hj
      have hskip2 : cleanupStaleReminders base (r :: rest)
            (cleanupStaleReminders base rest s)
          = cleanupStaleReminders base rest (cleanupStaleReminders base rest s) := by
        simp only [cleanupStaleReminders]
        rw [if_pos (by rw [houter]; rfl)]
      rw [hskip2, ih]
    · have hnone : lookupKV r.key s.reminders = none := by
        cases hq : lookupKV r.key s.reminders
        · rfl
        · rw [hq] at hr; exact absurd rfl hr
      rcases hstep : setupReminderStep s r.key r.schedule r.hours r.mins base true
        with ⟨s', res⟩
      cases res with
      | ok nx =>
        have hinner : cleanupStaleReminders base (r :: rest) s
            = cleanupStaleReminders base rest s' := by
          simp only [cleanupStaleReminders]
          rw [if_neg hr, hstep]
        rw [hinner]
        have hself : lookupKV r.key s'.reminders
            = some (cancelExisting s r.key).counter :=
          setupReminderStep_lookup_self_ok s s' r.key r.schedule r.hours r.mins
            base nx hstep
        have houter : lookupKV r.key
            (cleanupStaleReminders base rest s').reminders
            = some (cancelExisting s r.key).counter :=
          cleanup_lookup_mono base rest s' r.key _ hself
        have hskip2 : cleanupStaleReminders base (r :: rest)
              (cleanupStaleReminders base rest s')
            = cleanupStaleReminders base rest
                (cleanupStaleReminders base rest s') := by
          simp only [cleanupStaleReminders]
          rw [if_pos (by rw [houter]; rfl)]
        rw [hskip2, ih]
      | error e0 =>
        have hseq : s' = s := by
          have h1 := setupReminderStep_fst_of_error_true s s' r.key r.schedule
            r.hours r.mins base e0 hstep
          rw [cancelExisting_of_absent s r.key hnone] at h1
          exact h1
        have hinner : cleanupStaleReminders base (r :: rest) s = s' := by
          simp only [cleanupStaleReminders]
          rw [if_neg hr, hstep]
        rw [hinner, hseq, hinner, hseq]

/-- C7: the reconciliation sweep `cleanupStaleReminders` is strictly
additive and idempotent: every key→job binding present before the sweep is
still present unchanged afterwards (existing keys are never re-armed and no
job is ever removed), every armed timer stays armed, a timer armed by the
sweep belongs to a key that had no live job when the sweep started, and
running the sweep a second time on the same snapshot changes nothing (in
particular it arms no new timers).  The hypothesis excludes records whose
custom-day loop diverges, for which the first pass would never finish. -/
theorem c7_cleanup_additive_idempotent (base : LocalDT) (recs : List TaskRec)
    (s : RegState)
    (hnd : ∀ r ∈ recs, computeNextRun r.schedule r.hours r.mins base
      ≠ Except.error JsError.nonTermination) :
    (∀ k j, lookupKV k s.reminders = some j →
      lookupKV k (cleanupStaleReminders base recs s).reminders = some j) ∧
    (∀ e ∈ s.armed, e ∈ (cleanupStaleReminders base recs s).armed) ∧
    (∀ e ∈ (cleanupStaleReminders base recs s).armed,
      e ∈ s.armed ∨ lookupKV e.1 s.reminders = none) ∧
    cleanupStaleReminders base recs (cleanupStaleReminders base recs s)
      = cleanupStaleReminders base recs s := by
  exact ⟨fun k j h => cleanup_lookup_mono base recs s k j h,
    fun e he => cleanup_armed_mono base recs s e he,
    fun e he => cleanup_armed_source base recs s e he,
    cleanup_idem base recs s⟩

/-- Witness for C7 at a concrete input: one persisted daily record over the
empty registry. -/
theorem c7_cleanup_additive_idempotent_witness :
    cleanupStaleReminders ⟨2024, 9, 11, 12, 0, 0, 0⟩
        [⟨"5_water", .daily, 9, 0⟩]
        (cleanupStaleReminders ⟨2024, 9, 11, 12, 0, 0, 0⟩
          [⟨"5_water", .daily, 9, 0⟩] initRegState)
      = cleanupStaleReminders ⟨2024, 9, 11, 12, 0, 0, 0⟩
          [⟨"5_water", .daily, 9, 0⟩] initRegState :=
  (c7_cleanup_additive_idempotent ⟨2024, 9, 11, 12, 0, 0, 0⟩
    [⟨"5_water", .daily, 9, 0⟩] initRegState (by decide)).2.2.2

/-- C8 counterexample: in the periodic sweep `cleanupStaleReminders`, the
single `try/catch` wraps the whole loop, so the first record (a stored
`weekly` task, whose `setupReminder` throws `ReferenceError` on the
undefined `scheduleDay`) aborts the pass and the second, well-formed daily
record is never processed — no job is armed for it, although sweeping it
alone arms job 0.  This refutes the claim that a failure on one record does
not abort the sweep for the remaining records. -/
theorem c8_cleanup_abort_counterexample :
    lookupKV "2_good" (cleanupStaleReminders ⟨2024, 9, 11, 12, 0, 0, 0⟩
        [⟨"1_bad", .weekly, 9, 0⟩, ⟨"2_good", .daily, 9, 0⟩]
        initRegState).reminders = none ∧
    lookupKV "2_good" (cleanupStaleReminders ⟨2024, 9, 11, 12, 0, 0, 0⟩
        [⟨"2_good", .daily, 9, 0⟩] initRegState).reminders = some 0 := by
  decide

theorem restore_lookup_isSome_mono (s : RegState) (key k : String)
    (spec : ScheduleType) (hours mins : Nat) (base : LocalDT) (persistOk : Bool)
    (h : (lookupKV k s.reminders).isSome = true) :
    (lookupKV k (setupReminderStep s key spec hours mins base
      persistOk).1.reminders).isSome = true := by
  by_cases hk : k = key
  · subst hk
    unfold setupReminderStep
    cases computeNextRun spec hours mins base with
    | error e =>
      dsimp only
      rw [cancelExisting_reminders]
      exact h
    | ok nx =>
      cases persistOk <;>
      · dsimp only
        show (lookupKV k (insertKV k (cancelExisting s k).counter
          (cancelExisting s k).reminders)).isSome = true
        rw [lookupKV_insert_self]
        rfl
  · rw [setupReminderStep_preserves_other s k key hk]
    exact h

theorem restore_preserves_isSome (base : LocalDT) (recs : List TaskRec) :
    ∀ (s : RegState) (k : String),
      (lookupKV k s.reminders).isSome = true →
      (lookupKV k (restoreReminders base recs s).reminders).isSome = true := by
  induction recs with
  | nil => intro s k h; exact h
  | cons r rest ih =>
    intro s k h
    show (lookupKV k (restoreReminders base rest
      (setupReminderStep s r.key r.schedule r.hours r.mins base true).1).reminders).isSome = true
    exact ih _ k (restore_lookup_isSome_mono s r.key k r.schedule r.hours
      r.mins base true h)

/-- C8 amended: the *startup* sweep `restoreReminders` does isolate
per-record failures (each record is wrapped in its own `try/catch`): every
record whose stored schedule resolves successfully ends up with a live job
in the registry, regardless of other records in the pass throwing; but the
*periodic* sweep `cleanupStaleReminders` wraps the whole loop in one
`try/catch`, so there one failing record aborts the processing of all
records after it (see the counterexample). -/
theorem c8_amended_restore_isolates (base : LocalDT) (recs : List TaskRec)
    (s : RegState) (r : TaskRec) (hr : r ∈ recs) (nx : LocalDT)
    (hok : computeNextRun r.schedule r.hours r.mins base = .ok nx) :
    (lookupKV r.key (restoreReminders base recs s).reminders).isSome = true := by
  induction recs generalizing s with
  | nil => exact absurd hr (List.not_mem_nil r)
  | cons r0 rest ih =>
    show (lookupKV r.key (restoreReminders base rest
      (setupReminderStep s r0.key r0.schedule r0.hours r0.mins base
        true).1).reminders).isSome = true
    rcases List.mem_cons.mp hr with heq | htail
    · subst heq
      apply restore_preserves_isSome
      rcases hstep : setupReminderStep s r.key r.schedule r.hours r.mins base
        true with ⟨s', res⟩
      dsimp only
      cases res with
      | ok nx' =>
        rw [setupReminderStep_lookup_self_ok s s' r.key r.schedule r.hours
          r.mins base nx' hstep]
        rfl
      | error e0 =>
        -- impossible: the resolver succeeded and persistence is available
        exfalso
        unfold setupReminderStep at hstep
        rw [hok] at hstep
        dsimp only at hstep
        exact absurd (congrArg Prod.snd hstep) (by simp)
    · exact ih _ htail

/-- Witness for C8's amended statement at a concrete input: the first record
throws (weekly → `ReferenceError`), the second still gets a live job. -/
theorem c8_amended_restore_isolates_witness :
    (lookupKV "2_good" (restoreReminders ⟨2024, 9, 11, 12, 0, 0, 0⟩
        [⟨"1_bad", .weekly, 9, 0⟩, ⟨"2_good", .daily, 9, 0⟩]
        initRegState).reminders).isSome = true :=
  c8_amended_restore_isolates ⟨2024, 9, 11, 12, 0, 0, 0⟩
    [⟨"1_bad", .weekly, 9, 0⟩, ⟨"2_good", .daily, 9, 0⟩] initRegState
    ⟨"2_good", .daily, 9, 0⟩ (by simp) ⟨2024, 9, 12, 9, 0, 0, 0⟩ (by decide)

/-! ## Countdown ticker (`startCountdownUpdate`, src/unnamed/part_000:157-193)

`startCountdownUpdate` registers a `setInterval` callback (one-minute
period) keyed by `countdownId` in `activeCountdowns`.  On each invocation
the callback computes `diff = target - now`; if `diff ≤ 0` it clears the
interval, deletes the registry entry and deletes the message; otherwise it
edits the message, and any error (e.g. the message was deleted) is caught
by clearing the interval and deleting the registry entry. -/

/-- State of one countdown ticker: the `setInterval` handle (`none` once
`clearInterval` has run) and whether `activeCountdowns` still holds the
entry for this countdown id. -/
structure TickerState where
  handle : Option Nat
  inMap : Bool
deriving DecidableEq, Repr

/-- Observable effect of one tick of the countdown callback. -/
inductive TickEffect where
  /-- `message.edit(...)` succeeded. -/
  | edited
  /-- `message.edit(...)` (or the embed access) threw; caught by the
  `catch` block. -/
  | editFailed
  /-- `message.delete()` — the terminal action once the target passed. -/
  | deletedMessage
deriving DecidableEq, Repr

/-- One invocation of the interval callback of `startCountdownUpdate` at
wall-clock `now`; `editFails` tells whether the display update would throw.
A cleared interval (`handle = none`) is never invoked, producing no
effects. -/
def tickOnce (target now : LocalDT) (editFails : Bool) (st : TickerState) :
    TickerState × List TickEffect :=
  match st.handle with
  | none => (st, [])
  | some _ =>
      if leDT target now then ({ handle := none, inMap := false }, [.deletedMessage])
      else if editFails then ({ handle := none, inMap := false }, [.editFailed])
      else (st, [.edited])

/-- Run the callback over successive `(now, editFails)` instants,
accumulating the observable effects. -/
def runTicks (target : LocalDT) : List (LocalDT × Bool) → TickerState →
    TickerState × List TickEffect
  | [], st => (st, [])
  | (now, ef) :: rest, st =>
      let p := tickOnce target now ef st
      let q := runTicks target rest p.1
      (q.1, p.2 ++ q.2)

/-- C9: at the first tick at which the target instant has passed
(`diff ≤ 0`), a live ticker deletes the display, clears its interval handle
and its `activeCountdowns` entry — whether or not the display update would
have failed; likewise a failing display update stops the ticker; and a
stopped ticker (handle cleared, entry removed) produces no further ticks or
effects on any later schedule of instants. -/
theorem c9_countdown_stops (target now : LocalDT) (i : Nat)
    (inputs : List (LocalDT × Bool)) :
    (leDT target now = true →
      tickOnce target now false ⟨some i, true⟩
          = ({ handle := none, inMap := false }, [.deletedMessage]) ∧
      tickOnce target now true ⟨some i, true⟩
          = ({ handle := none, inMap := false }, [.deletedMessage])) ∧
    (leDT target now = false →
      tickOnce target now true ⟨some i, true⟩
          = ({ handle := none, inMap := false }, [.editFailed])) ∧
    runTicks target inputs { handle := none, inMap := false }
      = ({ handle := none, inMap := false }, []) := by
  refine ⟨fun hle => ?_, fun hlt => ?_, ?_⟩
  · constructor <;>
    · show (if leDT target now then _ else _) = _
      rw [if_pos hle]
  · show (if leDT target now then _ else _) = _
    rw [if_neg (by rw [hlt]; exact Bool.false_ne_true)]
    rw [if_pos rfl]
  · induction inputs with
    | nil => rfl
    | cons p rest ih =>
      obtain ⟨now', ef⟩ := p
      show runTicks target ((now', ef) :: rest) { handle := none, inMap := false } = _
      simp only [runTicks, tickOnce]
      rw [ih]
      rfl

/-- Witness for C9 at concrete instants: target 12:01, tick at 12:02. -/
theorem c9_countdown_stops_witness :
    tickOnce ⟨2024, 9, 11, 12, 1, 0, 0⟩ ⟨2024, 9, 11, 12, 2, 0, 0⟩ false
        ⟨some 3, true⟩
      = ({ handle := none, inMap := false }, [.deletedMessage]) :=
  ((c9_countdown_stops ⟨2024, 9, 11, 12, 1, 0, 0⟩ ⟨2024, 9, 11, 12, 2, 0, 0⟩ 3
    []).1 (by decide)).1

/-! ## DataManager (src/src/dataManager.js)

`ensureDataFile` checks `fs.access(dataPath)`; when the file is absent it
creates the parent directory (`mkdir recursive`) and writes the initial
content `JSON.stringify({users: {}}, null, 2)`.  `loadData` calls
`ensureDataFile`, reads the file and returns `JSON.parse` of its content. -/

/-- Minimal JSON values (objects with string keys, and strings) — enough to
express the initial data object `\x7b"users": \x7b\x7d\x7d`. -/
inductive JsonVal where
  | obj (fields : List (String × JsonVal))
  | str (s : String)
deriving Repr

def quoteChar : Char := Char.ofNat 34

def lbraceChar : Char := Char.ofNat 123

def rbraceChar : Char := Char.ofNat 125

def isWs (c : Char) : Bool :=
  c = ' ' || c = '\n' || c = '\t' || c = '\r'

def skipWs : List Char → List Char
  | [] => []
  | c :: rest => if isWs c then skipWs rest else c :: rest

def parseStringBody : List Char → Option (String × List Char)
  | [] => none
  | c :: rest =>
      if c = quoteChar then some ("", rest)
      else
        match parseStringBody rest with
        | some (s, r) => some (⟨c :: s.data⟩, r)
        | none => none

mutual

/-- `JSON.parse` on the modelled subset: a value (fuel-bounded). -/
def parseValue : Nat → List Char → Option (JsonVal × List Char)
  | 0, _ => none
  | fuel + 1, cs =>
      match skipWs cs with
      | [] => none
      | c :: rest =>
          if c = quoteChar then
            match parseStringBody rest with
            | some (s, r) => some (.str s, r)
            | none => none
          else if c = lbraceChar then
            match skipWs rest with
            | c' :: rest' =>
                if c' = rbraceChar then some (.obj [], rest')
                else parseMembers fuel (c' :: rest')
            | [] => none
          else none

/-- The members of an object, after its opening brace. -/
def parseMembers : Nat → List Char → Option (JsonVal × List Char)
  | 0, _ => none
  | fuel + 1, cs =>
      match skipWs cs with
      | [] => none
      | c :: rest =>
          if c = quoteChar then
            match parseStringBody rest with
            | some (k, r1) =>
                match skipWs r1 with
                | c2 :: r2 =>
                    if c2 = ':' then
                      match parseValue fuel r2 with
                      | some (v, r3) =>
                          match skipWs r3 with
                          | c4 :: r4 =>
                              if c4 = ',' then
                                match parseMembers fuel r4 with
                                | some (.obj fs, r5) =>
                                    some (.obj ((k, v) :: fs), r5)
                                | _ => none
                              else if c4 = rbraceChar then
                                some (.obj [(k, v)], r4)
                              else none
                          | [] => none
                      | none => none
                    else none
                | [] => none
            | none => none
          else none

end

def jsonParse (s : String) : Option JsonVal :=
  match parseValue (s.length + 1) s.data with
  | some (v, rest) => if skipWs rest = [] then some v else none
  | none => none

/-- `JSON.stringify(\x7b users: \x7b\x7d \x7d, null, 2)`. -/
def initialDataString : String := "\x7b\n  \"users\": \x7b\x7d\n\x7d"

/-- The filesystem as `DataManager` sees it: whether the `data` directory
exists and the content of `data/userData.json` when present. -/
structure FS where
  dataDirExists : Bool
  dataFile : Option String
deriving DecidableEq, Repr

/-- `DataManager.ensureDataFile` (src/src/dataManager.js:9-17). -/
def ensureDataFile (fs : FS) : FS :=
  match fs.dataFile with
  | some _ => fs
  | none => { dataDirExists := true, dataFile := some initialDataString }

/-- `DataManager.loadData` (src/src/dataManager.js:19-23). -/
def loadData (fs : FS) : FS × Except String JsonVal :=
  let fs1 := ensureDataFile fs
  match fs1.dataFile with
  | some content =>
      (fs1, match jsonParse content with
            | some v => .ok v
            | none => .error "SyntaxError")
  | none => (fs1, .error "ENOENT")

/-- C10: `loadData` never fails because the data file is absent: on a
filesystem without the file it first creates it (and its parent directory)
with the initial content and returns the parsed initial object
`\x7b"users": \x7b\x7d\x7d`; on an existing file it returns the parse of
the file's content. -/
theorem c10_loadData_absent_file (fs : FS) :
    (fs.dataFile = none →
      loadData fs = ({ dataDirExists := true, dataFile := some initialDataString },
        .ok (JsonVal.obj [("users", JsonVal.obj [])]))) ∧
    (∀ content, fs.dataFile = some content →
      loadData fs = (fs,
        match jsonParse content with
        | some v => .ok v
        | none => .error "SyntaxError")) := by
  constructor
  · intro h
    unfold loadData ensureDataFile
    rw [h]
    dsimp only
    rw [show jsonParse initialDataString
      = some (JsonVal.obj [("users", JsonVal.obj [])]) from rfl]
  · intro content h
    unfold loadData ensureDataFile
    rw [h]
    dsimp only
    rw [h]

/-- Witness for C10 on the empty filesystem. -/
theorem c10_loadData_absent_file_witness :
    loadData { dataDirExists := false, dataFile := none }
      = ({ dataDirExists := true, dataFile := some initialDataString },
          .ok (JsonVal.obj [("users", JsonVal.obj [])])) :=
  (c10_loadData_absent_file { dataDirExists := false, dataFile := none }).1 rfl

/-- C1 (violated by the code): at a perfectly valid input — Custom schedule
on weekday 5 (Friday), requested time 09:00, `now` = Friday 2024-10-11
12:00 local — the next-occurrence computation of `setupReminder` returns
Friday 09:00, an instant strictly *before* `now`: the custom-days loop
(line 833) tests only weekday membership and never compares the candidate
against `now`.  (For Weekly and Monthly specs the claim fails differently:
those branches throw, see the C4/C6 theorems.) -/
theorem c1_next_occurrence_can_be_past :
    computeNextRun (.custom [5]) 9 0 ⟨2024, 9, 11, 12, 0, 0, 0⟩
      = .ok ⟨2024, 9, 11, 9, 0, 0, 0⟩ ∧
    ltDT ⟨2024, 9, 11, 9, 0, 0, 0⟩ ⟨2024, 9, 11, 12, 0, 0, 0⟩ = true := by
  decide

/-- C4 (violated by the code): every Weekly schedule makes `setupReminder`
throw `ReferenceError` at `rule.dayOfWeek = scheduleDay` (line 844):
`scheduleDay` is not defined in the function's scope, so the claimed
advance-to-target-weekday algorithm is never executed. -/
theorem c4_weekly_throws_reference_error (hours mins : Nat) (now : LocalDT) :
    computeNextRun .weekly hours mins now = .error .referenceError := rfl

/-- C5 counterexample: for the Custom schedule on weekday 2 (Tuesday) at
08:00 with `now` = Tuesday 2024-10-08 12:00 local, the loop exits
immediately (today's weekday is a member) at Tuesday 08:00, an instant not
strictly greater than `now` — refuting the claim that the loop runs until
the weekday is a member *and* the candidate instant exceeds `now`. -/
theorem c5_custom_loop_ignores_now :
    computeNextRun (.custom [2]) 8 0 ⟨2024, 9, 8, 12, 0, 0, 0⟩
      = .ok ⟨2024, 9, 8, 8, 0, 0, 0⟩ ∧
    ltDT ⟨2024, 9, 8, 12, 0, 0, 0⟩ ⟨2024, 9, 8, 8, 0, 0, 0⟩ = false := by
  decide

/-- C5 amended: for a Custom schedule whose weekday set contains a valid
weekday, the loop advances the candidate one calendar day at a time — at
most 6 day-advances (7 membership tests) — stopping as soon as the
candidate's local weekday is in the set; the loop performs no comparison
against `now`, so the returned instant need not be greater than `now`. -/
theorem c5_amended_custom_advances_to_member (days : List Nat)
    (hours mins : Nat) (now : LocalDT) (hv : ValidDT now) (w : Nat)
    (hw : w ∈ days) (hw7 : w < 7) :
    ∃ k, k ≤ 6 ∧ computeNextRun (.custom days) hours mins now
        = .ok (addOneDay^[k] (mkNextRun0 hours mins now))
      ∧ days.contains (day (addOneDay^[k] (mkNextRun0 hours mins now))) = true := by
  have hvr : ValidDT (mkNextRun0 hours mins now) := by
    obtain ⟨a, b, c, d⟩ := hv
    exact ⟨a, b, c, d⟩
  have hd7 := day_lt_seven (mkNextRun0 hours mins now)
  have hj : ∃ j, j < 7 ∧
      days.contains ((day (mkNextRun0 hours mins now) + j) % 7) = true := by
    refine ⟨(w + 7 - day (mkNextRun0 hours mins now)) % 7, by omega, ?_⟩
    have heq : (day (mkNextRun0 hours mins now)
        + (w + 7 - day (mkNextRun0 hours mins now)) % 7) % 7 = w := by omega
    rw [heq]
    exact List.elem_eq_true_of_mem hw
  obtain ⟨k, hk7, hloop, hcont⟩ :=
    customLoop_reaches days 7 (mkNextRun0 hours mins now) hvr hj
  refine ⟨k, by omega, ?_, hcont⟩
  unfold computeNextRun
  dsimp only
  rw [hloop]

/-- Witness for C5's amended statement at a concrete input (Custom on
weekday 3 = Wednesday, evaluated on a Friday). -/
theorem c5_amended_custom_advances_to_member_witness :
    ∃ k, k ≤ 6 ∧ computeNextRun (.custom [3]) 9 0 ⟨2024, 9, 11, 12, 0, 0, 0⟩
        = .ok (addOneDay^[k] (mkNextRun0 9 0 ⟨2024, 9, 11, 12, 0, 0, 0⟩))
      ∧ ([3] : List Nat).contains
          (day (addOneDay^[k] (mkNextRun0 9 0 ⟨2024, 9, 11, 12, 0, 0, 0⟩))) = true :=
  c5_amended_custom_advances_to_member [3] 9 0 ⟨2024, 9, 11, 12, 0, 0, 0⟩
    (by decide) 3 (List.mem_singleton.mpr rfl) (by omega)

/-- C6 (violated by the code): every Monthly schedule makes `setupReminder`
throw `ReferenceError` at `rule.date = scheduleDay` (line 851) before any
clamping arithmetic: `scheduleDay` is not defined in the function's scope,
so the claimed min(day, daysInTargetMonth) clamp is never executed — in
particular a Monthly day-31 task evaluated in April errors out instead of
resolving to April 30. -/
theorem c6_monthly_throws_reference_error (hours mins : Nat) (now : LocalDT) :
    computeNextRun .monthly hours mins now = .error .referenceError := rfl
